import Mathlib

/-!
Verification of `src/jax/experimental/checkify.py` (the checkify error
transformation).  The development shallowly embeds the error data model
(`Error`, `assert_func`, `Error.get`), the per-primitive check rules
(`div_error_check`, `gather_error_check`, the assert primitive), the
batch reduction (`reduce_any_error`), the scan control-flow rewrite
(`scan_error_check`) and the effect-threading interpreter on a small
straight-line expression language, and proves the spec claims about them.

Machine arrays are modelled as row-major arrays (`NdArr`) with an explicit
shape; python dicts keyed by int are modelled as ordered association lists
with python insert/override semantics; the global `next_code` counter is
threaded explicitly; code that can raise (shape errors in `lax.select`,
numpy broadcasting) returns `Option`.
-/

namespace Checkify

/-- A row-major n-dimensional array: a shape and flat data.
Scalars (python `bool` / `int`, numpy rank-0 arrays) have shape `[]`.
Well-formedness (`data.length = shape.prod`) is carried as a hypothesis
where proofs need it. -/
structure NdArr (α : Type) where
  shape : List Nat
  data : List α
deriving DecidableEq, Repr

/-- A scalar array (shape `[]`). -/
def NdArr.scalar {α : Type} (a : α) : NdArr α := ⟨[], [a]⟩

/-- Number of elements, `np.size`: the product of the dimensions. -/
def NdArr.size {α : Type} (a : NdArr α) : Nat := a.shape.prod

/-- Elementwise map (e.g. `jnp.logical_not`). -/
def NdArr.map {α β : Type} (f : α → β) (a : NdArr α) : NdArr β :=
  ⟨a.shape, a.data.map f⟩

/-- Row-major linearisation of a multi-index for a given shape. -/
def flattenIdx : List Nat → List Nat → Nat
  | _ :: ds, i :: is => i * ds.prod + flattenIdx ds is
  | _, _ => 0

/-- Row-major multi-index of the k-th element for a given shape
(the order `np.ndenumerate` walks an array). -/
def unflattenIdx : List Nat → Nat → List Nat
  | [], _ => []
  | _ :: ds, k => (k / ds.prod) :: unflattenIdx ds (k % ds.prod)

/-- Element at a multi-index (out-of-range reads give `default`; proofs
only use in-range indices of well-formed arrays). -/
def NdArr.get {α : Type} [Inhabited α] (a : NdArr α) (idx : List Nat) : α :=
  a.data.getD (flattenIdx a.shape idx) default

/-- Numpy broadcasting of two aligned (reversed) shape lists: trailing
dimensions must agree or be 1. -/
def broadcastShapesRev : List Nat → List Nat → Option (List Nat)
  | [], t => some t
  | s, [] => some s
  | a :: s, b :: t =>
    match broadcastShapesRev s t with
    | none => none
    | some r =>
      if a = b then some (a :: r)
      else if a = 1 then some (b :: r)
      else if b = 1 then some (a :: r)
      else none

/-- Numpy broadcasting of two shapes (`none` models the `ValueError`
numpy raises for incompatible shapes). -/
def broadcastShapes (s t : List Nat) : Option (List Nat) :=
  (broadcastShapesRev s.reverse t.reverse).map List.reverse

/-- The source multi-index that a broadcast result multi-index reads from:
drop the leading extra axes and clamp length-1 (broadcast) axes to 0. -/
def srcIndex (s idx : List Nat) : List Nat :=
  List.zipWith (fun d i => if d = 1 then 0 else i) s (idx.drop (idx.length - s.length))

/-- Elementwise binary operation with numpy broadcasting (the semantics of
`jnp` binary ufuncs such as `|` on `bool` operands). -/
def NdArr.broadcast2 {α β γ : Type} [Inhabited α] [Inhabited β]
    (f : α → β → γ) (x : NdArr α) (y : NdArr β) : Option (NdArr γ) :=
  match broadcastShapes x.shape y.shape with
  | none => none
  | some r => some ⟨r, (List.range r.prod).map fun k =>
      let idx := unflattenIdx r k
      f (x.data.getD (flattenIdx x.shape (srcIndex x.shape idx)) default)
        (y.data.getD (flattenIdx y.shape (srcIndex y.shape idx)) default)⟩

/-- Model of `lax.select(pred, on_true, on_false)`: `on_true` and `on_false` must
have the same shape and `pred` must be scalar or match that shape
(`none` models the `TypeError` the lax shape rule raises otherwise). -/
def lax_select (p : NdArr Bool) (t f : NdArr Int) : Option (NdArr Int) :=
  if t.shape = f.shape then
    if p.shape = [] then some (if p.data.getD 0 false then t else f)
    else if p.shape = t.shape then
      some ⟨t.shape, (List.range t.shape.prod).map fun k =>
        if p.data.getD k false then t.data.getD k 0 else f.data.getD k 0⟩
    else none
  else none

/-- Python dict insertion: override the value if the key is present,
append the binding otherwise. -/
def dictInsert (d : List (Int × String)) (kv : Int × String) : List (Int × String) :=
  if d.any (fun p => p.1 == kv.1) then
    d.map (fun p => if p.1 == kv.1 then (p.1, kv.2) else p)
  else d ++ [kv]

/-- Python dict union `\x7b**d, **e\x7d`: insert the bindings of `e` into `d`
in order, with the bindings of `e` overriding those of `d`. -/
def dictUnion (d e : List (Int × String)) : List (Int × String) :=
  e.foldl dictInsert d

/-- Python dict lookup (keys are unique, so the first match is the binding). -/
def dictLookup (d : List (Int × String)) (k : Int) : Option String :=
  (d.find? (fun p => p.1 == k)).map (fun p => p.2)

/-- The functional error value of `checkify.py`
(`Error: err, code, msgs`, lines 52-56): a triggered flag (bool or bool
array), an error code (int or int array) and a code-to-message table. -/
structure Error where
  err : NdArr Bool
  code : NdArr Int
  msgs : List (Int × String)
deriving DecidableEq, Repr

/-- Model of `init_error = Error(False, 0, dict())` (line 73). -/
def init_error : Error := ⟨NdArr.scalar false, NdArr.scalar 0, []⟩

/-- Model of `next_code = it.count(1).__next__` (line 74): the process-wide monotone
counter issuing fresh codes, threaded explicitly as state starting at 1. -/
def next_code (ctr : Int) : Int × Int := (ctr, ctr + 1)

/-- Model of `assert_func(error, pred, msg)` (lines 80-84) with the call to the
global `next_code()` made explicit: the freshly drawn `code` is a
parameter.  `out_err = error.err | jnp.logical_not(pred)` (numpy
broadcast), `out_code = lax.select(error.err, error.code, code)`, and the
new message table is `\x7bcode: msg, **error.msgs\x7d`; `none` models the
exceptions the lax/numpy shape rules raise. -/
def assert_func (error : Error) (pred : NdArr Bool) (code : Int) (msg : String) :
    Option Error :=
  match NdArr.broadcast2 (fun a b => a || b) error.err (NdArr.map (fun b => !b) pred),
        lax_select error.err error.code (NdArr.scalar code) with
  | some oe, some oc => some ⟨oe, oc, dictUnion [(code, msg)] error.msgs⟩
  | _, _ => none

/-- Equality of error values as python `==` compares the frozen dataclass:
the `err` and `code` fields componentwise and the message dicts as
key-to-value mappings. -/
def errorEq (a b : Error) : Prop :=
  a.err = b.err ∧ a.code = b.code ∧ ∀ k, dictLookup a.msgs k = dictLookup b.msgs k

/-- One summary line of `Error.get` for a triggered position: the python
f-string `at mapped index idx: message` with the index components
comma-joined (line 64). -/
def errLine (msgs : List (Int × String)) (code : NdArr Int) (idx : List Nat) : String :=
  "at mapped index " ++ String.intercalate ", " (idx.map toString) ++ ": " ++
    (dictLookup msgs (code.data.getD (flattenIdx code.shape idx) 0)).getD ""

/-- The newline join of the summary lines, with python falsiness of the
empty string collapsing to `None` (`... or None`, line 66). -/
def joinLines (lines : List String) : Option String :=
  if String.intercalate "\n" lines = "" then none
  else some (String.intercalate "\n" lines)

/-- Model of `Error.get` (lines 58-67): human-readable summary or `none`.  A size-1
triggered error reports the message for its code; an array error reports
one line per triggered position in `np.ndenumerate` (row-major) order,
joined by newlines. -/
def Error.get (e : Error) : Option String :=
  if e.err.size = 1 then
    if e.err.data.getD 0 false then
      some ((dictLookup e.msgs (e.code.data.getD 0 0)).getD "")
    else none
  else
    joinLines ((List.range e.err.size).filterMap fun k =>
      if e.err.data.getD k false then
        some (errLine e.msgs e.code (unflattenIdx e.err.shape k))
      else none)

/-- All multi-indices of a shape, in ascending (row-major lexicographic)
order. -/
def allIdx : List Nat → List (List Nat)
  | [] => [[]]
  | d :: ds => (List.range d).flatMap fun i => (allIdx ds).map (i :: ·)

/-- The summary operation stated over indices enumerated in ascending
order, as the spec describes it (with the amended line format): compared
against the source `Error.get` in claim C8. -/
def summarizeSpec (e : Error) : Option String :=
  if e.err.size = 1 then
    if e.err.data.getD 0 false then
      some ((dictLookup e.msgs (e.code.data.getD 0 0)).getD "")
    else none
  else
    joinLines (((allIdx e.err.shape).filter fun idx => e.err.get idx).map
      (errLine e.msgs e.code))

/-- The scalar (rank-0) specialisation of the error value, as threaded by
the interpreter: python `bool`, python `int`, and the message dict. -/
structure SError where
  err : Bool
  code : Int
  msgs : List (Int × String)
deriving DecidableEq, Repr

/-- View of a scalar error as an `Error` value. -/
def SError.toError (s : SError) : Error :=
  ⟨NdArr.scalar s.err, NdArr.scalar s.code, s.msgs⟩

/-- The assertion fold `assert_func` specialised to scalar error
components and a scalar predicate (always total there); see
`sfold_toError` for the agreement with `assert_func`. -/
def sfold (e : SError) (pred : Bool) (code : Int) (msg : String) : SError :=
  ⟨e.err || !pred, if e.err then e.code else code, dictUnion [(code, msg)] e.msgs⟩

/-- Model of `jnp.isnan` on the modelled integer value domain: integer dtypes have
no NaN, so it is identically false (the NaN checks still run and still
allocate codes and messages). -/
def isnanI (_ : Int) : Bool := false

/-- Placeholder for the out-of-scope collaborator
`source_info_util.summarize(source_info_util.current())` (line 253). -/
def summary : String := "traceback"

/-- Message of `nan_error_check` (line 259). -/
def nanMsg (prim : String) : String :=
  "nan generated by primitive " ++ prim ++ " at " ++ summary

/-- Message of `div_error_check` (line 285). -/
def divMsg : String := "divided by zero at " ++ summary

/-- Message of `gather_error_check` (line 278). -/
def oobMsg : String := "out-of-bounds indexing at " ++ summary

/-- Straight-line expression programs over integer scalars: `add` and
`div` are checked primitives (`error_checks` holds a rule for them),
`neg` is an unchecked primitive (absent from the table). -/
inductive Expr where
  | lit : Int → Expr
  | var : Nat → Expr
  | add : Expr → Expr → Expr
  | neg : Expr → Expr
  | div : Expr → Expr → Expr
deriving DecidableEq, Repr

/-- The untransformed evaluation of a program (division is the truncated
integer division of the underlying primitive, with division by zero
producing 0). -/
def evalE (env : List Int) : Expr → Int
  | .lit n => n
  | .var i => env.getD i 0
  | .add a b => evalE env a + evalE env b
  | .neg a => -(evalE env a)
  | .div a b => Int.tdiv (evalE env a) (evalE env b)

/-- The effect-threading interpreter (`ErrorTrace.process_primitive`,
lines 103-113) on programs: argument subterms are interpreted left to
right, a primitive with a rule in the table executes the real primitive
and folds its checks into the threaded error (codes drawn in order from
the threaded counter: `nan_error_check` for `add`; `div_error_check` —
the divisor-nonzero fold followed by the NaN fold — for `div`), and a
primitive without a rule passes through unchecked (`neg`). -/
def checkEval (env : List Int) : Expr → SError → Int → Int × SError × Int
  | .lit n, E, c => (n, E, c)
  | .var i, E, c => (env.getD i 0, E, c)
  | .add a b, E, c =>
    let r1 := checkEval env a E c
    let r2 := checkEval env b r1.2.1 r1.2.2
    (r1.1 + r2.1,
     sfold r2.2.1 (!(isnanI (r1.1 + r2.1))) r2.2.2 (nanMsg "add"),
     r2.2.2 + 1)
  | .neg a, E, c =>
    let r1 := checkEval env a E c
    (-r1.1, r1.2.1, r1.2.2)
  | .div a b, E, c =>
    let r1 := checkEval env a E c
    let r2 := checkEval env b r1.2.1 r1.2.2
    let q := Int.tdiv r1.1 r2.1
    (q,
     sfold (sfold r2.2.1 (r2.1 != 0) r2.2.2 divMsg) (!(isnanI q)) (r2.2.2 + 1) (nanMsg "div"),
     r2.2.2 + 2)

/-- Model of `checkify(fun)` (lines 413-421) on the expression language: run the
interpreter from the empty initial error and return the pair
`(error, out)`, threading the global counter. -/
def checkify (e : Expr) (env : List Int) (ctr : Int) : (SError × Int) × Int :=
  ((((checkEval env e ⟨false, 0, []⟩ ctr).2.1), (checkEval env e ⟨false, 0, []⟩ ctr).1),
   (checkEval env e ⟨false, 0, []⟩ ctr).2.2)

/-- Shift every message-table key by `d`: how the message tables of two
runs of the same program relate when their starting counters differ
by `d`. -/
def mshift (d : Int) (m : List (Int × String)) : List (Int × String) :=
  m.map fun kv => (kv.1 + d, kv.2)

/-- Relation between the error states of two interpreter runs of the same
program whose code counters differ by `d`: same triggered flag, the code
and the message keys shifted by `d` (code 0 only before any fold), plus
the bookkeeping facts that codes are nonnegative and a triggered error
carries a positive code. -/
def ErrShift (d : Int) (E₁ E₂ : SError) : Prop :=
  E₂.err = E₁.err ∧
  E₂.code = (if E₁.code = 0 then 0 else E₁.code + d) ∧
  E₂.msgs = mshift d E₁.msgs ∧
  0 ≤ E₁.code ∧
  (E₁.err = true → 0 < E₁.code)

/-- Model of `lax.sort_key_val(errs, codes, dimension=0)` as used by the batch
reduction: stably sort the key-value pairs by the boolean keys (false
before true) and unzip. -/
def sort_key_val (errs : List Bool) (codes : List Int) : List Bool × List Int :=
  (((errs.zip codes).mergeSort fun p q => !p.1 || q.1).map (fun p => p.1),
   ((errs.zip codes).mergeSort fun p q => !p.1 || q.1).map (fun p => p.2))

/-- Model of `_reduce_any_error(errs, codes)` (lines 165-167): sort the per-batch
`(err, code)` pairs by `err` and report the pair at the last position. -/
def reduce_any_error (errs : List Bool) (codes : List Int) : Bool × Int :=
  ((sort_key_val errs codes).1.getLastD false,
   (sort_key_val errs codes).2.getLastD 0)

/-- Rank-1 gather (the out-of-scope `lax.gather_p` primitive specialised
to one gathered axis with `start_index_map = [0]`): for each start index,
clamp it into the legal range and read a contiguous slice. -/
def lax_gather1 (operand : List Int) (starts : List Int) (slice : Nat) : List (List Int) :=
  starts.map fun i =>
    (List.range slice).map fun j =>
      operand.getD (min (max i 0).toNat (operand.length - slice) + j) 0

/-- Model of `gather_error_check` (lines 262-280) specialised to a rank-1 operand:
execute the real gather, recompute the legal range
`[0, operand_dim - slice_size]` from the operand shape and slice sizes,
and fold the all-indices-in-bounds assertion (with the freshly drawn
code and the out-of-bounds message) into the error. -/
def gather_error_check (error : SError) (code : Int) (operand : List Int)
    (starts : List Int) (slice : Nat) : List (List Int) × SError :=
  (lax_gather1 operand starts slice,
   sfold error
     (starts.all fun i =>
       decide (0 ≤ i) && decide (i ≤ (operand.length : Int) - (slice : Int)))
     code oobMsg)

/-- Python values that can be passed as `pred` to `assert_`. -/
inductive PyVal where
  | pyBool : Bool → PyVal
  | boolArr : NdArr Bool → PyVal
  | intArr : NdArr Int → PyVal
deriving DecidableEq, Repr

/-- Model of `is_scalar_pred` (lines 230-233): a python bool, or a rank-0 ndarray
of boolean dtype. -/
def is_scalar_pred : PyVal → Bool
  | .pyBool _ => true
  | .boolArr a => decide (a.shape = [])
  | .intArr _ => false

/-- A recorded application of the zero-result assert primitive
(`assert2_` / `assert_p.bind(pred, code, msgs=msgs)`, lines 235-236). -/
structure AssertBind where
  pred : PyVal
  code : Int
  msgs : List (Int × String)
deriving DecidableEq, Repr

/-- Model of `assert_(pred, msg)` (lines 224-228) with the `next_code()` call made
explicit: raise `TypeError` unless the predicate is a scalar boolean,
otherwise allocate a fresh code and record the primitive application
`assert2_(pred, code, code-to-msg-dict)` for later discharge. -/
def assert_ (code : Int) (pred : PyVal) (msg : String) : Except String AssertBind :=
  if !(is_scalar_pred pred) then
    Except.error "assert_ takes a scalar pred as argument"
  else
    Except.ok ⟨pred, code, [(code, msg)]⟩

/-- Model of `assert_discharge_rule` (lines 404-408): under the overlay, the
recorded assert primitive folds into the error using the caller-supplied
code and message table (`\x7b**error.msgs, **msgs\x7d`), with the same
`or-not` / `select` logic as `assert_func`. -/
def assert_discharge_rule (error : Error) (pred : NdArr Bool) (code : Int)
    (msgs : List (Int × String)) : Option Error :=
  match NdArr.broadcast2 (fun a b => a || b) error.err (NdArr.map (fun b => !b) pred),
        lax_select error.err error.code (NdArr.scalar code) with
  | some oe, some oc => some ⟨oe, oc, dictUnion error.msgs msgs⟩
  | _, _ => none

/-- Model of `new_in_flat = [*consts, error.err, error.code, *carry, *xs]`
(line 350): the flat operand list handed to the rewritten scan, over an
arbitrary flat value type. -/
def scan_new_in_flat {α : Type} (consts : List α) (err code : α) (carry xs : List α) :
    List α :=
  consts ++ err :: code :: (carry ++ xs)

/-- Model of `lax.scan` (out-of-scope primitive): left-to-right fold threading the
carry and collecting the per-iteration outputs. -/
def lax_scan {σ β : Type} (f : σ → Int → σ × β) (init : σ) : List Int → σ × List β
  | [] => (init, [])
  | x :: rest =>
    ((lax_scan f (f init x).1 rest).1, (f init x).2 :: (lax_scan f (f init x).1 rest).2)

/-- The runtime error components of one fold of the checked body (the
checked jaxpr carries no message table at runtime; messages are collected
once at trace time): same `or-not` / `select` logic as `sfold`. -/
def foldEC (err : Bool) (code : Int) (pred : Bool) (c : Int) : Bool × Int :=
  (err || !pred, if err then code else c)

/-- One application of the checkified scan body for the loop scenario
`body(carry, x) = (q, q)` with `q = carry // x`: the division rule folds
the divisor-nonzero check (trace-time code `c`) and then the NaN check
(trace-time code `c + 1`), and the real division result is carried and
emitted. -/
def checked_div_body (c : Int) (err : Bool) (code : Int) (carry x : Int) :
    (Bool × Int) × Int × Int :=
  ((foldEC (foldEC err code (x != 0) c).1 (foldEC err code (x != 0) c).2
      (!(isnanI (Int.tdiv carry x))) (c + 1)),
   Int.tdiv carry x, Int.tdiv carry x)

/-- The rewritten per-iteration step: `err, code` ride as two extra
loop-carried slots in front of the original carry. -/
def scanDivStep (c : Int) (s : (Bool × Int) × Int) (x : Int) :
    ((Bool × Int) × Int) × Int :=
  (((checked_div_body c s.1.1 s.1.2 s.2 x).1, (checked_div_body c s.1.1 s.1.2 s.2 x).2.1),
   (checked_div_body c s.1.1 s.1.2 s.2 x).2.2)

/-- Model of `scan_error_check` (lines 346-358) for the consts-free, single-carry
loop over the checked division body: `checkify_jaxpr` (once, at trace
time) allocates the codes `ctr`, `ctr + 1` and their messages, the
error's two components are inserted as two extra carry slots in front of
the pre-existing carry (`num_carry = len(carry) + 2`), the underlying
scan runs, and the trace-time messages are merged into the outer table
(`new_msgs = \x7b**error.msgs, **msgs_\x7d`). -/
def scan_error_check (error : SError) (ctr : Int) (carry : Int) (xs : List Int) :
    (Int × List Int) × SError :=
  (((lax_scan (scanDivStep ctr) ((error.err, error.code), carry) xs).1.2,
    (lax_scan (scanDivStep ctr) ((error.err, error.code), carry) xs).2),
   ⟨(lax_scan (scanDivStep ctr) ((error.err, error.code), carry) xs).1.1.1,
    (lax_scan (scanDivStep ctr) ((error.err, error.code), carry) xs).1.1.2,
    dictUnion error.msgs [(ctr, divMsg), (ctr + 1, nanMsg "div")]⟩)


theorem flattenIdx_nil (idx : List Nat) : flattenIdx [] idx = 0 := by
  cases idx <;> rfl

theorem srcIndex_nil (idx : List Nat) : srcIndex [] idx = [] := by
  simp [srcIndex]

theorem unflattenIdx_length (s : List Nat) (k : Nat) :
    (unflattenIdx s k).length = s.length := by
  induction s generalizing k with
  | nil => rfl
  | cons d ds ih => simp [unflattenIdx, ih]

theorem flattenIdx_unflattenIdx (s : List Nat) (k : Nat) (hk : k < s.prod) :
    flattenIdx s (unflattenIdx s k) = k := by
  induction s generalizing k with
  | nil => simp [List.prod_nil] at hk; simp [unflattenIdx, flattenIdx, hk]
  | cons d ds ih =>
    have hP : 0 < ds.prod := by
      rcases Nat.eq_zero_or_pos ds.prod with h0 | h0
      · simp [List.prod_cons, h0] at hk
      · exact h0
    simp only [unflattenIdx, flattenIdx]
    rw [ih _ (Nat.mod_lt _ hP)]
    exact Nat.div_add_mod' k ds.prod

theorem srcIndex_unflattenIdx (s : List Nat) (k : Nat) (hk : k < s.prod) :
    srcIndex s (unflattenIdx s k) = unflattenIdx s k := by
  induction s generalizing k with
  | nil => simp [srcIndex, unflattenIdx]
  | cons d ds ih =>
    have hP : 0 < ds.prod := by
      rcases Nat.eq_zero_or_pos ds.prod with h0 | h0
      · simp [List.prod_cons, h0] at hk
      · exact h0
    have hlen : (unflattenIdx (d :: ds) k).length = (d :: ds).length :=
      unflattenIdx_length _ _
    have hdiv : k / ds.prod < d := by
      rw [List.prod_cons, Nat.mul_comm] at hk
      exact Nat.div_lt_of_lt_mul hk
    have ihm := ih (k % ds.prod) (Nat.mod_lt _ hP)
    simp only [srcIndex, hlen, Nat.sub_self, List.drop_zero] at ihm ⊢
    simp only [unflattenIdx, List.zipWith_cons_cons, List.cons.injEq]
    constructor
    · by_cases hd : d = 1
      · subst hd
        have : k / ds.prod = 0 := Nat.lt_one_iff.mp hdiv
        simp [this]
      · simp [hd]
    · have : (unflattenIdx ds (k % ds.prod)).length = ds.length :=
        unflattenIdx_length _ _
      simpa [srcIndex, this] using ihm

theorem dictInsert_fresh (acc : List (Int × String)) (kv : Int × String)
    (h : ∀ p ∈ acc, p.1 ≠ kv.1) : dictInsert acc kv = acc ++ [kv] := by
  have hany : acc.any (fun p => p.1 == kv.1) = false := by
    simp only [List.any_eq_false, beq_iff_eq]
    exact h
  simp [dictInsert, hany]

/-- Folding pairwise-fresh bindings into a dict just appends them. -/
theorem dictUnion_append (acc e : List (Int × String))
    (h1 : ∀ kv ∈ e, ∀ p ∈ acc, p.1 ≠ kv.1)
    (h2 : e.Pairwise (fun a b => a.1 ≠ b.1)) :
    dictUnion acc e = acc ++ e := by
  induction e generalizing acc with
  | nil => simp [dictUnion]
  | cons kv t ih =>
    have hins : dictInsert acc kv = acc ++ [kv] :=
      dictInsert_fresh acc kv (fun p hp => h1 kv (List.mem_cons_self _ _) p hp)
    rw [List.pairwise_cons] at h2
    simp only [dictUnion, List.foldl_cons]
    rw [show List.foldl dictInsert (dictInsert acc kv) t = dictUnion (dictInsert acc kv) t from rfl]
    rw [hins, ih (acc ++ [kv])]
    · simp
    · intro kv' hkv' p hp
      rcases List.mem_append.mp hp with hpa | hpk
      · exact h1 kv' (List.mem_cons_of_mem _ hkv') p hpa
      · rcases List.mem_singleton.mp hpk with rfl
        exact h2.1 kv' hkv'
    · exact h2.2

theorem dictLookup_none_keys {msgs : List (Int × String)} {c : Int}
    (h : dictLookup msgs c = none) : ∀ kv ∈ msgs, kv.1 ≠ c := by
  intro kv hkv
  simp only [dictLookup, Option.map_eq_none'] at h
  have := List.find?_eq_none.mp h kv hkv
  simpa [beq_iff_eq] using this

theorem broadcastShapes_nil_left (s : List Nat) : broadcastShapes [] s = some s := by
  have : broadcastShapesRev [] s.reverse = some s.reverse := by
    cases hs : s.reverse <;> rfl
  simp [broadcastShapes, this]

/-- Broadcasting a scalar against an array applies the operation at each
element of the array. -/
theorem broadcast2_scalar_left {α β γ : Type} [Inhabited α] [Inhabited β]
    (f : α → β → γ) (a : α) (y : NdArr β) :
    NdArr.broadcast2 f (NdArr.scalar a) y =
      some ⟨y.shape, (List.range y.shape.prod).map fun k => f a (y.data.getD k default)⟩ := by
  unfold NdArr.broadcast2
  rw [show (NdArr.scalar a).shape = ([] : List Nat) from rfl, broadcastShapes_nil_left]
  simp only [Option.some.injEq, NdArr.mk.injEq, true_and]
  apply List.map_congr_left
  intro k hk
  have hk' : k < y.shape.prod := List.mem_range.mp hk
  have h1 : srcIndex [] (unflattenIdx y.shape k) = [] := srcIndex_nil _
  have h2 : srcIndex y.shape (unflattenIdx y.shape k) = unflattenIdx y.shape k :=
    srcIndex_unflattenIdx _ _ hk'
  have h3 : flattenIdx y.shape (unflattenIdx y.shape k) = k :=
    flattenIdx_unflattenIdx _ _ hk'
  simp [h1, h2, h3, flattenIdx_nil, NdArr.scalar]

/-- The assertion fold on an all-scalar error with a scalar predicate:
`out_err = err OR NOT pred`, `out_code = old code if already triggered,
else the fresh code (whatever the predicate)`, message table extended. -/
theorem assert_func_scalar (b p : Bool) (k c : Int) (msgs : List (Int × String)) (m : String) :
    assert_func ⟨NdArr.scalar b, NdArr.scalar k, msgs⟩ (NdArr.scalar p) c m =
      some ⟨NdArr.scalar (b || !p), NdArr.scalar (if b then k else c),
        dictUnion [(c, m)] msgs⟩ := by
  cases b <;> cases p <;> rfl

theorem broadcastShapes_nil_right (s : List Nat) : broadcastShapes s [] = some s := by
  have : broadcastShapesRev s.reverse [] = some s.reverse := by
    cases hs : s.reverse <;> rfl
  simp [broadcastShapes, this]

theorem lax_select_scalar (b : Bool) (k c : Int) :
    lax_select (NdArr.scalar b) (NdArr.scalar k) (NdArr.scalar c) =
      some (NdArr.scalar (if b then k else c)) := by
  cases b <;> rfl

/-- Destructuring a successful assertion fold into the success of its
broadcast-or and select parts. -/
theorem assert_func_eq_some (error : Error) (pred : NdArr Bool) (code : Int)
    (msg : String) (e' : Error) :
    assert_func error pred code msg = some e' ↔
    ∃ oe oc,
      NdArr.broadcast2 (fun a b => a || b) error.err (NdArr.map (fun b => !b) pred) = some oe ∧
      lax_select error.err error.code (NdArr.scalar code) = some oc ∧
      e' = ⟨oe, oc, dictUnion [(code, msg)] error.msgs⟩ := by
  unfold assert_func
  cases hbr : NdArr.broadcast2 (fun a b => a || b) error.err (NdArr.map (fun b => !b) pred) with
  | none => simp
  | some oe =>
    cases hsel : lax_select error.err error.code (NdArr.scalar code) with
    | none => simp
    | some oc => simp [eq_comm]

/-- C2: first-error precedence.  Folding two failing assertions with fresh,
distinct codes into a scalar untriggered error reports the first message,
and once an error is triggered no later assert fold changes its recorded
code. -/
theorem claim_C2 (k : Int) (msgs : List (Int × String)) (c₁ c₂ : Int) (A B : String)
    (hA : dictLookup msgs c₁ = none) (hB : dictLookup msgs c₂ = none)
    (hne : c₁ ≠ c₂) (hdk : msgs.Pairwise (fun a b => a.1 ≠ b.1)) :
    (∃ e₁ e₂,
      assert_func ⟨NdArr.scalar false, NdArr.scalar k, msgs⟩ (NdArr.scalar false) c₁ A = some e₁ ∧
      assert_func e₁ (NdArr.scalar false) c₂ B = some e₂ ∧
      e₂.get = some A) ∧
    (∀ (e e' : Error) (p : NdArr Bool) (c : Int) (m : String),
      e.err = NdArr.scalar true → assert_func e p c m = some e' → e'.code = e.code) := by
  constructor
  · have h1A : ∀ kv ∈ msgs, ∀ p ∈ [(c₁, A)], p.1 ≠ kv.1 := by
      intro kv hkv p hp
      rcases List.mem_singleton.mp hp with rfl
      exact (dictLookup_none_keys hA kv hkv).symm
    have hmsgs₁ : dictUnion [(c₁, A)] msgs = (c₁, A) :: msgs := by
      simpa using dictUnion_append [(c₁, A)] msgs h1A hdk
    have hpair : ((c₁, A) :: msgs).Pairwise (fun a b => a.1 ≠ b.1) := by
      rw [List.pairwise_cons]
      exact ⟨fun kv hkv => (dictLookup_none_keys hA kv hkv).symm, hdk⟩
    have h1B : ∀ kv ∈ (c₁, A) :: msgs, ∀ p ∈ [(c₂, B)], p.1 ≠ kv.1 := by
      intro kv hkv p hp
      rcases List.mem_singleton.mp hp with rfl
      rcases List.mem_cons.mp hkv with rfl | hkv'
      · exact Ne.symm hne
      · exact (dictLookup_none_keys hB kv hkv').symm
    have hmsgs₂ : dictUnion [(c₂, B)] ((c₁, A) :: msgs) = (c₂, B) :: (c₁, A) :: msgs := by
      simpa using dictUnion_append [(c₂, B)] _ h1B hpair
    refine ⟨⟨NdArr.scalar true, NdArr.scalar c₁, dictUnion [(c₁, A)] msgs⟩,
            ⟨NdArr.scalar true, NdArr.scalar c₁, dictUnion [(c₂, B)] (dictUnion [(c₁, A)] msgs)⟩,
            ?_, ?_, ?_⟩
    · simpa using assert_func_scalar false false k c₁ msgs A
    · simpa using assert_func_scalar true false c₁ c₂ (dictUnion [(c₁, A)] msgs) B
    · rw [hmsgs₁, hmsgs₂]
      have hbeq : (c₂ == c₁) = false := by
        simp [Ne.symm hne]
      simp [Error.get, NdArr.size, NdArr.scalar, dictLookup, List.find?, hbeq]
  · intro e e' p c m herr hsucc
    rw [assert_func_eq_some] at hsucc
    obtain ⟨oe, oc, hbr, hsel, hE⟩ := hsucc
    rw [herr] at hsel
    simp only [lax_select, NdArr.scalar, List.getD] at hsel
    split at hsel
    · simp only [if_pos rfl, if_true] at hsel
      obtain rfl : e.code = oc := by simpa using hsel
      rw [hE]
    · exact absurd hsel (by simp)

/-- Witness for C2 at the empty message table with codes 1 and 2. -/
theorem claim_C2_witness :
    (∃ e₁ e₂,
      assert_func ⟨NdArr.scalar false, NdArr.scalar 0, []⟩ (NdArr.scalar false) 1 "A" = some e₁ ∧
      assert_func e₁ (NdArr.scalar false) 2 "B" = some e₂ ∧
      e₂.get = some "A") ∧
    (∀ (e e' : Error) (p : NdArr Bool) (c : Int) (m : String),
      e.err = NdArr.scalar true → assert_func e p c m = some e' → e'.code = e.code) :=
  claim_C2 0 [] 1 2 "A" "B" rfl rfl (by decide) List.Pairwise.nil

/-- C3 counterexample: the claim says a position that has not yet failed
adopts the fresh code only if the predicate is false there, but folding a
true predicate into the untriggered initial error still replaces the code
field (0 becomes the fresh code 5). -/
theorem claim_C3_counterexample :
    ∃ e', assert_func init_error (NdArr.scalar true) 5 "m" = some e' ∧
      e'.code = NdArr.scalar 5 ∧ init_error.code = NdArr.scalar 0 ∧
      e'.code ≠ init_error.code :=
  ⟨⟨NdArr.scalar false, NdArr.scalar 5, [(5, "m")]⟩, rfl, rfl, rfl, by decide⟩

/-- C3 (amended): the fold on a scalar error returns a new error whose
triggered field is `old triggered OR NOT predicate` elementwise, whose
code field is `select(old triggered, old code, c)` — positions already
failed keep their original code and positions not yet failed adopt the
fresh code `c` unconditionally, whatever the predicate — and whose
message table gains the binding for `c`. -/
theorem claim_C3 (b : Bool) (k : Int) (msgs : List (Int × String)) (p : NdArr Bool)
    (hp : p.data.length = p.shape.prod) (c : Int) (m : String) :
    ∃ e', assert_func ⟨NdArr.scalar b, NdArr.scalar k, msgs⟩ p c m = some e' ∧
      e'.err.shape = p.shape ∧
      (∀ i, i < p.shape.prod → e'.err.data.getD i false = (b || !(p.data.getD i false))) ∧
      e'.code = NdArr.scalar (if b then k else c) ∧
      e'.msgs = dictUnion [(c, m)] msgs := by
  have hbr := broadcast2_scalar_left (fun a b => a || b) b (NdArr.map (fun b => !b) p)
  refine ⟨⟨⟨p.shape, (List.range p.shape.prod).map fun i =>
            b || ((NdArr.map (fun b => !b) p).data.getD i default)⟩,
          NdArr.scalar (if b then k else c), dictUnion [(c, m)] msgs⟩, ?_, rfl, ?_, rfl, rfl⟩
  · rw [assert_func_eq_some]
    refine ⟨_, _, hbr, lax_select_scalar b k c, rfl⟩
  · intro i hi
    have hlen : i < ((List.range p.shape.prod).map fun j =>
        b || ((NdArr.map (fun b => !b) p).data.getD j default)).length := by
      simpa using hi
    rw [List.getD_eq_getElem _ _ hlen, List.getElem_map, List.getElem_range]
    have hid : i < p.data.length := by rw [hp]; exact hi
    have hmap : i < ((NdArr.map (fun b => !b) p).data).length := by
      simpa [NdArr.map] using hid
    rw [show (NdArr.map (fun b => !b) p).data = p.data.map (fun b => !b) from rfl] at hmap ⊢
    rw [List.getD_eq_getElem _ _ hmap, List.getElem_map,
      List.getD_eq_getElem _ _ hid]

/-- Witness for C3 at a length-2 predicate on the empty initial error. -/
theorem claim_C3_witness :
    ∃ e', assert_func ⟨NdArr.scalar false, NdArr.scalar 0, []⟩ ⟨[2], [true, false]⟩ 5 "w" = some e' ∧
      e'.err.shape = (⟨[2], [true, false]⟩ : NdArr Bool).shape ∧
      (∀ i, i < (⟨[2], [true, false]⟩ : NdArr Bool).shape.prod →
        e'.err.data.getD i false =
          (false || !((⟨[2], [true, false]⟩ : NdArr Bool).data.getD i false))) ∧
      e'.code = NdArr.scalar (if false then 0 else 5) ∧
      e'.msgs = dictUnion [(5, "w")] [] :=
  claim_C3 false 0 [] ⟨[2], [true, false]⟩ (by decide) 5 "w"

/-- C4 counterexample: folding an array-shaped predicate into the scalar
initial error yields an array-shaped triggered field next to a scalar
code field, so the fold does not preserve the shape invariant for every
predicate shape. -/
theorem claim_C4_counterexample :
    ∃ e', assert_func init_error ⟨[3], [true, true, true]⟩ 5 "m" = some e' ∧
      e'.err.shape ≠ e'.code.shape :=
  ⟨⟨⟨[3], [false, false, false]⟩, NdArr.scalar 5, [(5, "m")]⟩, rfl, by decide⟩

/-- C4 (amended): the shape invariant holds for the initial error value and
is preserved by every assertion fold whose predicate is scalar; an
array-shaped predicate (as in the counterexample) breaks it. -/
theorem claim_C4 :
    init_error.err.shape = init_error.code.shape ∧
    ∀ (e e' : Error) (p : NdArr Bool) (c : Int) (m : String),
      p.shape = [] → assert_func e p c m = some e' →
      e'.err.shape = e'.code.shape := by
  refine ⟨rfl, ?_⟩
  intro e e' p c m hp hsucc
  rw [assert_func_eq_some] at hsucc
  obtain ⟨oe, oc, hbr, hsel, hE⟩ := hsucc
  have hcode : e.code.shape = [] ∧ oc.shape = [] ∧ e.err.shape = [] := by
    simp only [lax_select] at hsel
    split at hsel
    case isTrue hts =>
      have hc : e.code.shape = [] := by simpa [NdArr.scalar] using hts
      split at hsel
      case isTrue herr =>
        obtain rfl : (if e.err.data.getD 0 false then e.code else NdArr.scalar c) = oc := by
          simpa using hsel
        refine ⟨hc, ?_, herr⟩
        split
        · exact hc
        · rfl
      case isFalse herr =>
        split at hsel
        case isTrue heq =>
          exact absurd (heq.trans hc) herr
        case isFalse heq =>
          exact absurd hsel (by simp)
    case isFalse hts =>
      exact absurd hsel (by simp)
  have herr : oe.shape = [] := by
    have hps : (NdArr.map (fun b => !b) p).shape = ([] : List Nat) := by
      rw [show (NdArr.map (fun b => !b) p).shape = p.shape from rfl, hp]
    simp only [NdArr.broadcast2, hcode.2.2, hps, broadcastShapes_nil_right] at hbr
    rw [Option.some.injEq] at hbr
    rw [← hbr]
  rw [hE]
  exact herr.trans hcode.2.1.symm

/-- Witness for C4 at a scalar true predicate on the initial error. -/
theorem claim_C4_witness :
    init_error.err.shape = init_error.code.shape ∧
    (⟨NdArr.scalar false, NdArr.scalar 7, [(7, "w")]⟩ : Error).err.shape =
      (⟨NdArr.scalar false, NdArr.scalar 7, [(7, "w")]⟩ : Error).code.shape :=
  ⟨claim_C4.1, claim_C4.2 init_error _ (NdArr.scalar true) 7 "w" rfl rfl⟩

theorem range_mul_flatMap (d P : Nat) :
    List.range (d * P) =
      (List.range d).flatMap fun i => (List.range P).map fun j => i * P + j := by
  induction d with
  | zero => simp
  | succ n ih =>
    rw [Nat.succ_mul, List.range_add, ih, List.range_succ, List.flatMap_append]
    simp

theorem allIdx_eq_nil_of_prod_eq_zero (s : List Nat) (h : s.prod = 0) :
    allIdx s = [] := by
  induction s with
  | nil => simp at h
  | cons d ds ih =>
    rw [List.prod_cons] at h
    rcases Nat.mul_eq_zero.mp h with hd | hP
    · simp [allIdx, hd]
    · rw [allIdx, List.flatMap_eq_nil_iff]
      intro i _
      rw [ih hP]
      rfl

/-- Enumerating linear positions in order and unflattening them walks all
multi-indices in ascending row-major order. -/
theorem range_prod_map_unflattenIdx (s : List Nat) :
    (List.range s.prod).map (unflattenIdx s) = allIdx s := by
  induction s with
  | nil => rfl
  | cons d ds ih =>
    rcases Nat.eq_zero_or_pos ds.prod with hP | hP
    · rw [List.prod_cons, hP, Nat.mul_zero]
      rw [allIdx_eq_nil_of_prod_eq_zero _ (by rw [List.prod_cons, hP, Nat.mul_zero])]
      rfl
    · rw [List.prod_cons, range_mul_flatMap d ds.prod, allIdx, List.map_flatMap]
      have hfun : ∀ i : Nat,
          ((List.range ds.prod).map fun j => i * ds.prod + j).map (unflattenIdx (d :: ds))
            = (allIdx ds).map (i :: ·) := by
        intro i
        rw [List.map_map, ← ih, List.map_map]
        apply List.map_congr_left
        intro j hj
        have hjP : j < ds.prod := List.mem_range.mp hj
        simp only [Function.comp]
        rw [show unflattenIdx (d :: ds) (i * ds.prod + j) =
            ((i * ds.prod + j) / ds.prod) :: unflattenIdx ds ((i * ds.prod + j) % ds.prod)
          from rfl]
        have hdiv : (i * ds.prod + j) / ds.prod = i := by
          rw [Nat.add_comm, Nat.add_mul_div_right _ _ hP, Nat.div_eq_of_lt hjP, Nat.zero_add]
        have hmod : (i * ds.prod + j) % ds.prod = j := by
          rw [Nat.add_comm, Nat.add_mul_mod_self_right, Nat.mod_eq_of_lt hjP]
        rw [hdiv, hmod]
      simp only [hfun]

theorem filterMap_ite {α β : Type} (l : List α) (p : α → Bool) (h : α → β) :
    (l.filterMap fun x => if p x then some (h x) else none) = (l.filter p).map h := by
  induction l with
  | nil => rfl
  | cons a t ih =>
    by_cases hpa : p a <;> simp [List.filterMap_cons, List.filter_cons, hpa, ih]

/-- C8 counterexample: the array-error summary line begins with
`at mapped index`, not with `at index` as the claim states. -/
theorem claim_C8_counterexample :
    Error.get ⟨⟨[2], [false, true]⟩, ⟨[2], [0, 7]⟩, [(7, "boom")]⟩ =
      some "at mapped index 1: boom" ∧
    "at mapped index 1: boom" ≠ "at index 1: boom" := by
  constructor
  · rfl
  · decide

/-- C8 (amended): `get` returns `none` when no position triggered (the
empty join), the message for `code` for a size-1 triggered error, and for
an array error one line per triggered index in ascending row-major index
order, newline-joined, each formatted `at mapped index idx: message` —
i.e. it agrees with the spec-shaped `summarizeSpec` on every error
value. -/
theorem claim_C8 (e : Error) : e.get = summarizeSpec e := by
  unfold Error.get summarizeSpec
  by_cases hs : e.err.size = 1
  · simp [hs]
  · simp only [hs, if_false]
    congr 1
    have key : ∀ k ∈ List.range e.err.size,
        (e.err.data.getD k false) = e.err.get (unflattenIdx e.err.shape k) := by
      intro k hk
      have hk' : k < e.err.shape.prod := List.mem_range.mp hk
      unfold NdArr.get
      rw [flattenIdx_unflattenIdx _ _ hk']
      rfl
    rw [filterMap_ite (List.range e.err.size) (fun k => e.err.data.getD k false)
      (fun k => errLine e.msgs e.code (unflattenIdx e.err.shape k))]
    rw [List.filter_congr key]
    rw [show (List.range e.err.size) = (List.range e.err.shape.prod) from rfl]
    rw [← range_prod_map_unflattenIdx e.err.shape, List.filter_map, List.map_map]
    rfl

/-- The scalar fold is `assert_func` through the scalar view. -/
theorem sfold_toError (e : SError) (pred : Bool) (code : Int) (msg : String) :
    assert_func e.toError (NdArr.scalar pred) code msg =
      some (sfold e pred code msg).toError :=
  assert_func_scalar e.err pred e.code code e.msgs msg

/-- The interpreter never alters the numerical result: each rule executes
the real primitive and only folds checks into the error. -/
theorem checkEval_fst (env : List Int) (e : Expr) (E : SError) (c : Int) :
    (checkEval env e E c).1 = evalE env e := by
  induction e generalizing E c with
  | lit n => rfl
  | var i => rfl
  | add a b iha ihb =>
    simp only [checkEval, evalE, iha, ihb]
  | neg a iha =>
    simp only [checkEval, evalE, iha]
  | div a b iha ihb =>
    simp only [checkEval, evalE, iha, ihb]

/-- C1 counterexample: a single checked `add` on inputs that pass every
check already returns an error value different from the initial empty
value: its code field is the freshly allocated code 1 and its message
table records the NaN check, even though nothing triggered. -/
theorem claim_C1_counterexample :
    (checkify (.add (.var 0) (.var 1)) [1, 2] 1).1.2 =
      evalE [1, 2] (.add (.var 0) (.var 1)) ∧
    (checkify (.add (.var 0) (.var 1)) [1, 2] 1).1.1.err = false ∧
    (checkify (.add (.var 0) (.var 1)) [1, 2] 1).1.1.code = 1 ∧
    (checkify (.add (.var 0) (.var 1)) [1, 2] 1).1.1.msgs = [(1, nanMsg "add")] ∧
    ¬ errorEq (checkify (.add (.var 0) (.var 1)) [1, 2] 1).1.1.toError init_error := by
  refine ⟨rfl, rfl, rfl, rfl, ?_⟩
  intro h
  have := h.2.1
  rw [show (checkify (.add (.var 0) (.var 1)) [1, 2] 1).1.1.toError.code =
      NdArr.scalar 1 from rfl] at this
  exact absurd this (by decide)

/-- C1 (amended): the transformed function returns the pair
`(error, out)` where `out` is always identical to the untransformed
result, and on every input where no runtime check fails (the returned
triggered flag is false) the error summary `get()` is `None`; the error
value itself however records the performed checks in its code field and
message table, so it is not in general equal to the initial empty value. -/
theorem claim_C1 (e : Expr) (env : List Int) (ctr : Int) :
    (checkify e env ctr).1.2 = evalE env e ∧
    ((checkify e env ctr).1.1.err = false →
      (checkify e env ctr).1.1.toError.get = none) := by
  constructor
  · exact checkEval_fst env e ⟨false, 0, []⟩ ctr
  · intro h
    have h' : (checkEval env e ⟨false, 0, []⟩ ctr).2.1.err = false := h
    simp [checkify, Error.get, SError.toError, NdArr.size, NdArr.scalar, h']

/-- Witness for C1: a checked division on valid inputs triggers nothing
and summarises to `None`. -/
theorem claim_C1_witness :
    (checkify (.div (.var 0) (.var 1)) [4, 2] 1).1.1.err = false ∧
    (checkify (.div (.var 0) (.var 1)) [4, 2] 1).1.1.toError.get = none :=
  ⟨by decide, (claim_C1 (.div (.var 0) (.var 1)) [4, 2] 1).2 (by decide)⟩

theorem mshift_dictInsert (d : Int) (acc : List (Int × String)) (kv : Int × String) :
    mshift d (dictInsert acc kv) = dictInsert (mshift d acc) (kv.1 + d, kv.2) := by
  have hany : (mshift d acc).any (fun p => p.1 == kv.1 + d) =
      acc.any (fun p => p.1 == kv.1) := by
    unfold mshift
    rw [List.any_map]
    congr 1
    funext p
    simp only [Function.comp]
    by_cases h : p.1 = kv.1
    · simp [h]
    · have h2 : p.1 + d ≠ kv.1 + d := by omega
      rw [beq_eq_false_iff_ne.mpr h2, beq_eq_false_iff_ne.mpr h]
  simp only [dictInsert]
  rw [hany]
  split
  · unfold mshift
    rw [List.map_map, List.map_map]
    congr 1
    funext p
    simp only [Function.comp]
    by_cases h : p.1 = kv.1
    · simp [h]
    · have h2 : p.1 + d ≠ kv.1 + d := by omega
      simp [h, h2]
  · unfold mshift
    rw [List.map_append]
    rfl

theorem mshift_dictUnion (d : Int) (A B : List (Int × String)) :
    mshift d (dictUnion A B) = dictUnion (mshift d A) (mshift d B) := by
  induction B generalizing A with
  | nil => rfl
  | cons kv t ih =>
    have l1 : dictUnion A (kv :: t) = dictUnion (dictInsert A kv) t := rfl
    have l2 : dictUnion (mshift d A) (mshift d (kv :: t)) =
        dictUnion (dictInsert (mshift d A) (kv.1 + d, kv.2)) (mshift d t) := rfl
    rw [l1, l2, ih (dictInsert A kv), mshift_dictInsert]

theorem sfold_shift (d : Int) (E₁ E₂ : SError) (p : Bool) (c : Int) (m : String)
    (hR : ErrShift d E₁ E₂) (hc : 0 < c) :
    ErrShift d (sfold E₁ p c m) (sfold E₂ p (c + d) m) := by
  obtain ⟨he, hcode, hm, hnn, hpos⟩ := hR
  refine ⟨by simp [sfold, he], ?_, ?_, ?_, ?_⟩
  · simp only [sfold, he, hcode]
    by_cases hb : E₁.err = true
    · have h0 : ¬ E₁.code = 0 := by have := hpos hb; omega
      simp [hb, h0]
    · have h0 : ¬ c = 0 := by omega
      simp [hb, h0]
  · simp only [sfold, hm]
    rw [show mshift d (dictUnion [(c, m)] E₁.msgs) =
        dictUnion (mshift d [(c, m)]) (mshift d E₁.msgs) from mshift_dictUnion d _ _]
    rfl
  · simp only [sfold]
    by_cases hb : E₁.err = true
    · simp [hb]; omega
    · simp [hb]; omega
  · intro _
    simp only [sfold]
    by_cases hb : E₁.err = true
    · simp [hb]; exact hpos hb
    · simp [hb]; omega

theorem dictLookup_mshift (d : Int) (m : List (Int × String)) (k : Int) :
    dictLookup (mshift d m) (k + d) = dictLookup m k := by
  unfold dictLookup mshift
  rw [List.find?_map]
  have hq : ((fun p : Int × String => p.1 == k + d) ∘ fun kv => (kv.1 + d, kv.2)) =
      fun p : Int × String => p.1 == k := by
    funext p
    simp only [Function.comp]
    by_cases h : p.1 = k
    · simp [h]
    · have h2 : p.1 + d ≠ k + d := by omega
      rw [beq_eq_false_iff_ne.mpr h2, beq_eq_false_iff_ne.mpr h]
  rw [hq, Option.map_map]
  congr 1

/-- Two shift-related scalar errors have identical summaries. -/
theorem toError_get_shift (d : Int) (E₁ E₂ : SError) (hR : ErrShift d E₁ E₂) :
    E₂.toError.get = E₁.toError.get := by
  obtain ⟨he, hcode, hm, hnn, hpos⟩ := hR
  by_cases hb : E₁.err = true
  · have h0 : ¬ E₁.code = 0 := by have := hpos hb; omega
    have hlk := dictLookup_mshift d E₁.msgs E₁.code
    simp only [SError.toError, Error.get, NdArr.size, NdArr.scalar, he, hb, hcode, hm, h0,
      List.prod_nil, if_true, if_pos rfl, List.getD, if_false]
    simp [hlk]
  · have hb' : E₁.err = false := by revert hb; cases E₁.err <;> simp
    simp [SError.toError, Error.get, NdArr.size, NdArr.scalar, he, hb']

/-- Runs of the interpreter from shift-related error states, with
counters differing by `d`, produce the same values, shift-related error
states, counters still differing by `d`, and a counter that never
decreases. -/
theorem checkEval_shift (env : List Int) (e : Expr) (E₁ E₂ : SError) (c d : Int)
    (hc : 0 < c) (hR : ErrShift d E₁ E₂) :
    (checkEval env e E₂ (c + d)).1 = (checkEval env e E₁ c).1 ∧
    ErrShift d (checkEval env e E₁ c).2.1 (checkEval env e E₂ (c + d)).2.1 ∧
    (checkEval env e E₂ (c + d)).2.2 = (checkEval env e E₁ c).2.2 + d ∧
    c ≤ (checkEval env e E₁ c).2.2 := by
  induction e generalizing E₁ E₂ c with
  | lit n => exact ⟨rfl, hR, rfl, le_refl c⟩
  | var i => exact ⟨rfl, hR, rfl, le_refl c⟩
  | neg a iha =>
    obtain ⟨h1, h2, h3, h4⟩ := iha E₁ E₂ c hc hR
    simp only [checkEval]
    exact ⟨by rw [h1], h2, h3, h4⟩
  | add a b iha ihb =>
    obtain ⟨hv1, hR1, hk1, hm1⟩ := iha E₁ E₂ c hc hR
    have hc1 : 0 < (checkEval env a E₁ c).2.2 := lt_of_lt_of_le hc hm1
    obtain ⟨hv2, hR2, hk2, hm2⟩ := ihb _ _ _ hc1 hR1
    have hc2 : 0 < (checkEval env b (checkEval env a E₁ c).2.1 (checkEval env a E₁ c).2.2).2.2 :=
      lt_of_lt_of_le hc1 hm2
    simp only [checkEval]
    rw [hk1]
    refine ⟨by rw [hv1, hv2], ?_, by rw [hk2]; ring, by omega⟩
    rw [hv1, hv2, hk2]
    exact sfold_shift d _ _ _ _ _ hR2 hc2
  | div a b iha ihb =>
    obtain ⟨hv1, hR1, hk1, hm1⟩ := iha E₁ E₂ c hc hR
    have hc1 : 0 < (checkEval env a E₁ c).2.2 := lt_of_lt_of_le hc hm1
    obtain ⟨hv2, hR2, hk2, hm2⟩ := ihb _ _ _ hc1 hR1
    have hc2 : 0 < (checkEval env b (checkEval env a E₁ c).2.1 (checkEval env a E₁ c).2.2).2.2 :=
      lt_of_lt_of_le hc1 hm2
    simp only [checkEval]
    rw [hk1]
    refine ⟨by rw [hv1, hv2], ?_, by rw [hk2]; ring, by omega⟩
    rw [hv1, hv2, hk2]
    have hstep : ErrShift d
        (sfold (checkEval env b (checkEval env a E₁ c).2.1 (checkEval env a E₁ c).2.2).2.1
          ((checkEval env b (checkEval env a E₁ c).2.1 (checkEval env a E₁ c).2.2).1 != 0)
          (checkEval env b (checkEval env a E₁ c).2.1 (checkEval env a E₁ c).2.2).2.2 divMsg)
        (sfold (checkEval env b (checkEval env a E₂ (c + d)).2.1
            ((checkEval env a E₁ c).2.2 + d)).2.1
          ((checkEval env b (checkEval env a E₁ c).2.1 (checkEval env a E₁ c).2.2).1 != 0)
          ((checkEval env b (checkEval env a E₁ c).2.1 (checkEval env a E₁ c).2.2).2.2 + d)
          divMsg) :=
      sfold_shift d _ _ _ _ _ hR2 hc2
    have harith :
        (checkEval env b (checkEval env a E₁ c).2.1 (checkEval env a E₁ c).2.2).2.2 + d + 1 =
        ((checkEval env b (checkEval env a E₁ c).2.1 (checkEval env a E₁ c).2.2).2.2 + 1) + d := by
      ring
    rw [harith]
    exact sfold_shift d _ _ _ _ _ hstep (by omega)

/-- C10: running the transformed function twice (the second run taking
over the counter the first one left) produces identical numerical
results and identical `get()` summaries; the returned error values
themselves differ in general, because the second run draws fresh codes:
for a checked `add` the first run records code 1 and the second code 2,
so the two error values are not equal. -/
theorem claim_C10 (e : Expr) (env : List Int) (c₁ : Int) (hc : 0 < c₁) :
    ((checkify e env (checkify e env c₁).2).1.2 = (checkify e env c₁).1.2) ∧
    ((checkify e env (checkify e env c₁).2).1.1.toError.get =
      (checkify e env c₁).1.1.toError.get) ∧
    ((checkify (.add (.var 0) (.var 1)) [1, 2] 1).1.1.code = 1 ∧
     (checkify (.add (.var 0) (.var 1)) [1, 2]
        (checkify (.add (.var 0) (.var 1)) [1, 2] 1).2).1.1.code = 2 ∧
     ¬ errorEq (checkify (.add (.var 0) (.var 1)) [1, 2] 1).1.1.toError
        (checkify (.add (.var 0) (.var 1)) [1, 2]
          (checkify (.add (.var 0) (.var 1)) [1, 2] 1).2).1.1.toError) := by
  have hinit : ErrShift ((checkify e env c₁).2 - c₁) ⟨false, 0, []⟩ ⟨false, 0, []⟩ := by
    refine ⟨rfl, by simp, rfl, le_refl 0, ?_⟩
    intro h
    simp at h
  have hshift := checkEval_shift env e ⟨false, 0, []⟩ ⟨false, 0, []⟩ c₁
    ((checkify e env c₁).2 - c₁) hc hinit
  have hcc : c₁ + ((checkify e env c₁).2 - c₁) = (checkify e env c₁).2 := by ring
  rw [hcc] at hshift
  obtain ⟨hv, hR, _, _⟩ := hshift
  refine ⟨?_, ?_, rfl, rfl, ?_⟩
  · exact hv
  · exact toError_get_shift _ _ _ hR
  · intro h
    have h2 := h.2.1
    rw [show (checkify (.add (.var 0) (.var 1)) [1, 2] 1).1.1.toError.code =
        NdArr.scalar 1 from rfl] at h2
    rw [show (checkify (.add (.var 0) (.var 1)) [1, 2]
        (checkify (.add (.var 0) (.var 1)) [1, 2] 1).2).1.1.toError.code =
        NdArr.scalar 2 from rfl] at h2
    exact absurd h2 (by decide)

/-- Witness for C10 at the checked `add` program and counter 1. -/
theorem claim_C10_witness :
    ((checkify (.add (.var 0) (.var 1)) [1, 2]
        (checkify (.add (.var 0) (.var 1)) [1, 2] 1).2).1.2 =
      (checkify (.add (.var 0) (.var 1)) [1, 2] 1).1.2) ∧
    ((checkify (.add (.var 0) (.var 1)) [1, 2]
        (checkify (.add (.var 0) (.var 1)) [1, 2] 1).2).1.1.toError.get =
      (checkify (.add (.var 0) (.var 1)) [1, 2] 1).1.1.toError.get) ∧
    ((checkify (.add (.var 0) (.var 1)) [1, 2] 1).1.1.code = 1 ∧
     (checkify (.add (.var 0) (.var 1)) [1, 2]
        (checkify (.add (.var 0) (.var 1)) [1, 2] 1).2).1.1.code = 2 ∧
     ¬ errorEq (checkify (.add (.var 0) (.var 1)) [1, 2] 1).1.1.toError
        (checkify (.add (.var 0) (.var 1)) [1, 2]
          (checkify (.add (.var 0) (.var 1)) [1, 2] 1).2).1.1.toError) :=
  claim_C10 (.add (.var 0) (.var 1)) [1, 2] 1 (by decide)

/-- In a list sorted by the boolean key, a false-keyed last element forces
every key to be false. -/
theorem last_false_all_false {l : List (Bool × Int)} (h : l ≠ [])
    (hsorted : List.Pairwise (fun a b => (!a.1 || b.1) = true) l)
    (hp : (l.getLast h).1 = false) :
    ∀ q ∈ l, q.1 = false := by
  intro q hq
  rw [List.mem_iff_get] at hq
  obtain ⟨i, rfl⟩ := hq
  have hlen : 0 < l.length := List.length_pos.mpr h
  rcases Nat.lt_or_ge i.1 (l.length - 1) with hi | hi
  · have hij : (⟨i.1, i.2⟩ : Fin l.length) < ⟨l.length - 1, by omega⟩ := hi
    have hrel := (List.pairwise_iff_get.mp hsorted) _ _ hij
    rw [← List.getLast_eq_get l h] at hrel
    rw [hp] at hrel
    cases hgi : (l.get i).1
    · rfl
    · rw [hgi] at hrel
      simp at hrel
  · have hieq : i = (⟨l.length - 1, by omega⟩ : Fin l.length) := by
      apply Fin.ext
      have := i.2
      simp only []
      omega
    rw [hieq, ← List.getLast_eq_get l h]
    exact hp

/-- C6: the batch reduction stably sorts the `(err, code)` pairs by the
boolean `err` key and takes the last pair: the reduced `err` is the
disjunction of the batch flags (true exactly when some element
triggered, false when none did), and whenever it is true the reduced
pair is one of the batch's `(err, code)` pairs — so the reported code is
the code of some triggered element. -/
theorem claim_C6 (errs : List Bool) (codes : List Int)
    (hlen : errs.length = codes.length) (hne : 0 < errs.length) :
    (reduce_any_error errs codes).1 = errs.any (fun b => b) ∧
    ((reduce_any_error errs codes).1 = true →
      ((reduce_any_error errs codes).1, (reduce_any_error errs codes).2) ∈ errs.zip codes) := by
  have hzlen : (errs.zip codes).length = errs.length := by
    rw [List.length_zip, hlen]
    simp
  have hperm := List.mergeSort_perm (errs.zip codes) (fun p q => !p.1 || q.1)
  have hslen : ((errs.zip codes).mergeSort fun p q => !p.1 || q.1).length = errs.length := by
    rw [hperm.length_eq, hzlen]
  have hsne : ((errs.zip codes).mergeSort fun p q => !p.1 || q.1) ≠ [] := by
    intro hnil
    rw [hnil] at hslen
    simp at hslen
    omega
  have hlast := List.getLast?_eq_getLast _ hsne
  have hred : reduce_any_error errs codes =
      ((((errs.zip codes).mergeSort fun p q => !p.1 || q.1).getLast hsne).1,
       (((errs.zip codes).mergeSort fun p q => !p.1 || q.1).getLast hsne).2) := by
    unfold reduce_any_error sort_key_val
    rw [List.getLastD_eq_getLast?, List.getLastD_eq_getLast?, List.getLast?_map,
      List.getLast?_map, hlast]
    rfl
  have htrans : ∀ (a b c : Bool × Int),
      (!a.1 || b.1) = true → (!b.1 || c.1) = true → (!a.1 || c.1) = true := by
    intro a b c hab hbc
    cases ha : a.1 <;> cases hb : b.1 <;> cases hc : c.1 <;> simp_all
  have htotal : ∀ (a b : Bool × Int), ((!a.1 || b.1) || (!b.1 || a.1)) = true := by
    intro a b
    cases ha : a.1 <;> cases hb : b.1 <;> simp [ha, hb]
  have hsorted := List.sorted_mergeSort htrans htotal (errs.zip codes)
  have hpmem : (((errs.zip codes).mergeSort fun p q => !p.1 || q.1).getLast hsne)
      ∈ errs.zip codes := hperm.mem_iff.mp (List.getLast_mem hsne)
  constructor
  · cases hptop : (((errs.zip codes).mergeSort fun p q => !p.1 || q.1).getLast hsne).1
    · have hall := last_false_all_false hsne hsorted hptop
      have hnone : errs.any (fun b => b) = false := by
        rw [List.any_eq_false]
        intro b hb
        rw [List.mem_iff_get] at hb
        obtain ⟨i, rfl⟩ := hb
        have hi2 : i.1 < (errs.zip codes).length := by rw [hzlen]; exact i.2
        have hpair : (errs.zip codes)[i.1] ∈ errs.zip codes := List.getElem_mem hi2
        have hsmem := hperm.mem_iff.mpr hpair
        have := hall _ hsmem
        rw [List.getElem_zip] at this
        simp only [] at this
        rw [List.get_eq_getElem]
        simp [this]
      rw [hred, hnone, hptop]
    · have hsome : errs.any (fun b => b) = true := by
        rw [List.any_eq_true]
        refine ⟨(((errs.zip codes).mergeSort fun p q => !p.1 || q.1).getLast hsne).1,
          (List.of_mem_zip hpmem).1, ?_⟩
        rw [hptop]
      rw [hred, hsome, hptop]
  · intro htrue
    rw [hred]
    exact hpmem

/-- C7: the gather check executes the real gather (the output is the
primitive's result, untouched) and asserts that every start index lies in
`[0, operand_dim - slice_size]`, with the out-of-bounds message; on a
length-5 axis with slice size 1, start index 10 triggers a non-empty
error whose summary is the out-of-bounds message, while start index 3
leaves the summary empty. -/
theorem claim_C7 (E : SError) (code : Int) (operand : List Int) (starts : List Int)
    (slice : Nat) (hE : E.err = false) :
    (gather_error_check E code operand starts slice).1 = lax_gather1 operand starts slice ∧
    ((gather_error_check E code operand starts slice).2.err = false ↔
      ∀ i ∈ starts, 0 ≤ i ∧ i ≤ (operand.length : Int) - (slice : Int)) ∧
    ((gather_error_check ⟨false, 0, []⟩ 1 [11, 12, 13, 14, 15] [10] 1).2.err = true ∧
     (gather_error_check ⟨false, 0, []⟩ 1 [11, 12, 13, 14, 15] [10] 1).2.toError.get =
       some oobMsg ∧
     (gather_error_check ⟨false, 0, []⟩ 1 [11, 12, 13, 14, 15] [3] 1).2.toError.get = none) := by
  refine ⟨rfl, ?_, rfl, rfl, rfl⟩
  simp only [gather_error_check, sfold, hE, Bool.false_or]
  constructor
  · intro h
    have hall : (starts.all fun i =>
        decide (0 ≤ i) && decide (i ≤ (operand.length : Int) - (slice : Int))) = true := by
      cases hp : (starts.all fun i =>
          decide (0 ≤ i) && decide (i ≤ (operand.length : Int) - (slice : Int)))
      · rw [hp] at h
        simp at h
      · rfl
    intro i hi
    have := List.all_eq_true.mp hall i hi
    simpa using this
  · intro h
    have hall : (starts.all fun i =>
        decide (0 ≤ i) && decide (i ≤ (operand.length : Int) - (slice : Int))) = true := by
      rw [List.all_eq_true]
      intro i hi
      simpa using h i hi
    rw [hall]
    rfl

/-- Witness for C7 at the in-bounds scenario input. -/
theorem claim_C7_witness :
    (gather_error_check ⟨false, 0, []⟩ 1 [11, 12, 13, 14, 15] [3] 1).1 =
      lax_gather1 [11, 12, 13, 14, 15] [3] 1 ∧
    ((gather_error_check ⟨false, 0, []⟩ 1 [11, 12, 13, 14, 15] [3] 1).2.err = false ↔
      ∀ i ∈ [(3 : Int)], 0 ≤ i ∧ i ≤ (([11, 12, 13, 14, 15] : List Int).length : Int) - ((1 : Nat) : Int)) ∧
    ((gather_error_check ⟨false, 0, []⟩ 1 [11, 12, 13, 14, 15] [10] 1).2.err = true ∧
     (gather_error_check ⟨false, 0, []⟩ 1 [11, 12, 13, 14, 15] [10] 1).2.toError.get =
       some oobMsg ∧
     (gather_error_check ⟨false, 0, []⟩ 1 [11, 12, 13, 14, 15] [3] 1).2.toError.get = none) :=
  claim_C7 ⟨false, 0, []⟩ 1 [11, 12, 13, 14, 15] [3] 1 rfl

/-- C9: `assert_` fails eagerly with the scalar-predicate `TypeError`
exactly when the predicate is not a scalar boolean, and otherwise records
the assertion — the bind of the predicate with a fresh code and its
message table — whose later discharge under the overlay folds it into
the error with the same logic as the assertion fold; a discharged false
assertion on an empty error summarises to the recorded message. -/
theorem claim_C9 (code : Int) (pred : PyVal) (msg : String) :
    (assert_ code pred msg =
      if is_scalar_pred pred then Except.ok ⟨pred, code, [(code, msg)]⟩
      else Except.error "assert_ takes a scalar pred as argument") ∧
    (∀ (b p : Bool) (k : Int) (msgs : List (Int × String)),
      assert_discharge_rule ⟨NdArr.scalar b, NdArr.scalar k, msgs⟩ (NdArr.scalar p) code
          [(code, msg)] =
        some ⟨NdArr.scalar (b || !p), NdArr.scalar (if b then k else code),
          dictUnion msgs [(code, msg)]⟩) ∧
    Error.get ⟨NdArr.scalar true, NdArr.scalar code, dictUnion [] [(code, msg)]⟩ = some msg := by
  refine ⟨?_, ?_, ?_⟩
  · unfold assert_
    cases h : is_scalar_pred pred <;> simp [h]
  · intro b p k msgs
    cases b <;> cases p <;> rfl
  · have hm : dictUnion [] [(code, msg)] = [(code, msg)] := rfl
    rw [hm]
    simp [Error.get, NdArr.size, NdArr.scalar, dictLookup, List.getD]

/-- Lemma: `foldEC` is the error/code part of the scalar assertion fold. -/
theorem foldEC_sfold (err : Bool) (code : Int) (pred : Bool) (c : Int)
    (m : List (Int × String)) (msg : String) :
    foldEC err code pred c =
      ((sfold ⟨err, code, m⟩ pred c msg).err, (sfold ⟨err, code, m⟩ pred c msg).code) :=
  rfl

theorem lax_scan_append {σ β : Type} (f : σ → Int → σ × β) (s : σ) (l1 l2 : List Int) :
    (lax_scan f s (l1 ++ l2)).1 = (lax_scan f (lax_scan f s l1).1 l2).1 := by
  induction l1 generalizing s with
  | nil => rfl
  | cons x rest ih =>
    simp only [List.cons_append, lax_scan]
    exact ih (f s x).1

/-- Once the carried error has triggered, every further iteration of the
checked body leaves the error slots untouched (freeze-on-first-trigger
across iterations). -/
theorem lax_scan_frozen (c code carry : Int) (xs : List Int) :
    (lax_scan (scanDivStep c) ((true, code), carry) xs).1.1 = (true, code) := by
  induction xs generalizing carry with
  | nil => rfl
  | cons x rest ih =>
    simp only [lax_scan]
    have hstep : (scanDivStep c ((true, code), carry) x).1 =
        ((true, code), Int.tdiv carry x) := by
      simp [scanDivStep, checked_div_body, foldEC]
    rw [hstep]
    exact ih (Int.tdiv carry x)

/-- C5 counterexample: with no constants, one pre-existing carry slot 5
and one scanned input 6, the flat operand list actually built places the
error components 98, 99 before the carry, not after it as the claim
states. -/
theorem claim_C5_counterexample :
    scan_new_in_flat ([] : List Int) 98 99 [5] [6] = [98, 99, 5, 6] ∧
    ([98, 99, 5, 6] : List Int) ≠ [5, 98, 99, 6] := by
  exact ⟨rfl, by decide⟩

/-- C5 (amended): the rewrite inserts the error's two components as two
additional loop-carried slots immediately after the constants and before
the pre-existing carried state (hence before the scanned sequence
inputs), and the transformed loop executes so that a division-by-zero
triggering at iteration 4 of 10 yields the same non-empty error value —
triggered, the division check's trace-time code, and its message —
regardless of what the scanned inputs of iterations 5 through 10 are. -/
theorem claim_C5 :
    (∀ (consts carry xs : List Int) (err code : Int),
      (scan_new_in_flat consts err code carry xs).take consts.length = consts ∧
      (scan_new_in_flat consts err code carry xs)[consts.length]? = some err ∧
      (scan_new_in_flat consts err code carry xs)[consts.length + 1]? = some code ∧
      (scan_new_in_flat consts err code carry xs).drop (consts.length + 2) = carry ++ xs) ∧
    (∀ tail : List Int, tail.length = 6 →
      (scan_error_check ⟨false, 0, []⟩ 1 100 ([2, 2, 2, 0] ++ tail)).2 =
        ⟨true, 1, [(1, divMsg), (2, nanMsg "div")]⟩ ∧
      (scan_error_check ⟨false, 0, []⟩ 1 100 ([2, 2, 2, 0] ++ tail)).2.toError.get =
        some divMsg) := by
  constructor
  · intro consts carry xs err code
    unfold scan_new_in_flat
    refine ⟨List.take_left _ _, ?_, ?_, ?_⟩
    · rw [List.getElem?_append_right (le_refl consts.length)]
      simp
    · rw [List.getElem?_append_right (by omega : consts.length ≤ consts.length + 1)]
      simp
    · rw [← List.drop_drop, List.drop_left]
      rfl
  · intro tail htail
    have hpre : (lax_scan (scanDivStep 1) ((false, 0), 100) [2, 2, 2, 0]).1 =
        ((true, 1), 0) := by decide
    have hsplit := lax_scan_append (scanDivStep 1) ((false, (0 : Int)), (100 : Int))
      [2, 2, 2, 0] tail
    have hfro := lax_scan_frozen 1 1 0 tail
    have herrc : (lax_scan (scanDivStep 1) ((false, 0), 100) ([2, 2, 2, 0] ++ tail)).1.1 =
        (true, 1) := by
      rw [hsplit, hpre]
      exact hfro
    have h1 : (scan_error_check ⟨false, 0, []⟩ 1 100 ([2, 2, 2, 0] ++ tail)).2 =
        ⟨true, 1, [(1, divMsg), (2, nanMsg "div")]⟩ := by
      show (⟨(lax_scan (scanDivStep 1) ((false, 0), 100) ([2, 2, 2, 0] ++ tail)).1.1.1,
            (lax_scan (scanDivStep 1) ((false, 0), 100) ([2, 2, 2, 0] ++ tail)).1.1.2,
            dictUnion [] [(1, divMsg), (2, nanMsg "div")]⟩ : SError) =
          ⟨true, 1, [(1, divMsg), (2, nanMsg "div")]⟩
      rw [herrc]
      rfl
    exact ⟨h1, by rw [h1]; rfl⟩

/-- Witness for C5 at one constant, one carry slot, one scanned input,
and at the 10-iteration scenario with trailing inputs all 1. -/
theorem claim_C5_witness :
    ((scan_new_in_flat ([9] : List Int) 98 99 [5] [6]).take ([(9 : Int)]).length = [9] ∧
     (scan_new_in_flat ([9] : List Int) 98 99 [5] [6])[([(9 : Int)]).length]? = some 98 ∧
     (scan_new_in_flat ([9] : List Int) 98 99 [5] [6])[([(9 : Int)]).length + 1]? = some 99 ∧
     (scan_new_in_flat ([9] : List Int) 98 99 [5] [6]).drop (([(9 : Int)]).length + 2) =
       [5] ++ [6]) ∧
    ((scan_error_check ⟨false, 0, []⟩ 1 100 ([2, 2, 2, 0] ++ [1, 1, 1, 1, 1, 1])).2 =
       ⟨true, 1, [(1, divMsg), (2, nanMsg "div")]⟩ ∧
     (scan_error_check ⟨false, 0, []⟩ 1 100
        ([2, 2, 2, 0] ++ [1, 1, 1, 1, 1, 1])).2.toError.get = some divMsg) :=
  ⟨claim_C5.1 [9] [5] [6] 98 99, claim_C5.2 [1, 1, 1, 1, 1, 1] rfl⟩

/-- Witness for C6 at a three-element batch whose middle element
triggered. -/
theorem claim_C6_witness :
    (reduce_any_error [false, true, false] [5, 6, 7]).1 =
      ([false, true, false].any (fun b => b)) ∧
    ((reduce_any_error [false, true, false] [5, 6, 7]).1 = true →
      ((reduce_any_error [false, true, false] [5, 6, 7]).1,
       (reduce_any_error [false, true, false] [5, 6, 7]).2) ∈
        [false, true, false].zip [5, 6, 7]) :=
  claim_C6 [false, true, false] [5, 6, 7] (by decide) (by decide)

end Checkify
